import Mathlib

/-!
Verification development for the `ambients` repository: a shallow embedding
of the term model (`crates/parser/src/ast.rs`), the lexer token classes
(`crates/lexer/src/lib.rs`), the reduction engine (`crates/reducer/src/lib.rs`),
the `Ambient` wrapper types (`crates/core/src/ambient.rs`, `src/ambient.rs`),
and spec-modelled definitions for the parts of the repository that are not in
the provided sources (the LALRPOP grammar file and the redex matcher), followed
by theorems settling the specification claims.
-/

namespace Ambients

/-- The AST enum `Exec` from `crates/parser/src/ast.rs`.  `ID<'input>` is a
string slice, embedded as `String`.  `Box` indirection is dropped. -/
inductive Exec where
  | Parallel : List Exec → Exec
  | Serial : List Exec → Exec
  | Noop : String → Exec
  | Ambient : String → Exec → Exec
  | Group : Exec → Exec
  | Open : String → Exec
  | Open_ : String → Exec
  | In : String → Exec
  | In_ : String → Exec
  | Out : String → Exec
  | Out_ : String → Exec

mutual

/-- Structural (exact) equality of `Exec` trees, written out because the nested
`List` occurrence blocks `deriving DecidableEq`. -/
def execEq : Exec → Exec → Bool
  | .Parallel a, .Parallel b => execListEq a b
  | .Serial a, .Serial b => execListEq a b
  | .Noop a, .Noop b => a == b
  | .Ambient a x, .Ambient b y => a == b && execEq x y
  | .Group x, .Group y => execEq x y
  | .Open a, .Open b => a == b
  | .Open_ a, .Open_ b => a == b
  | .In a, .In b => a == b
  | .In_ a, .In_ b => a == b
  | .Out a, .Out b => a == b
  | .Out_ a, .Out_ b => a == b
  | _, _ => false

def execListEq : List Exec → List Exec → Bool
  | [], [] => true
  | x :: xs, y :: ys => execEq x y && execListEq xs ys
  | _, _ => false

end

mutual

/-- The text produced by Rust's derived `Debug` formatting (`format!("{:?}", t)`)
for an `Exec` value: the only comparison the repository ever performs on terms
(every test asserts equality of these strings).  `Box` is transparent in `Debug`
output; a `Vec` prints as `[x, y]`; a string field prints quoted. -/
def fmtDebug : Exec → String
  | .Parallel es => "Parallel([" ++ fmtDebugList es ++ "])"
  | .Serial es => "Serial([" ++ fmtDebugList es ++ "])"
  | .Noop n => "Noop(\"" ++ n ++ "\")"
  | .Ambient n e => "Ambient(\"" ++ n ++ "\", " ++ fmtDebug e ++ ")"
  | .Group e => "Group(" ++ fmtDebug e ++ ")"
  | .Open n => "Open(\"" ++ n ++ "\")"
  | .Open_ n => "Open_(\"" ++ n ++ "\")"
  | .In n => "In(\"" ++ n ++ "\")"
  | .In_ n => "In_(\"" ++ n ++ "\")"
  | .Out n => "Out(\"" ++ n ++ "\")"
  | .Out_ n => "Out_(\"" ++ n ++ "\")"

def fmtDebugList : List Exec → String
  | [] => ""
  | [e] => fmtDebug e
  | e :: es => fmtDebug e ++ ", " ++ fmtDebugList es

end

/-- The term comparison the repository actually uses: equality of the `Debug`
strings, as in `assert_eq!(format!("{:?}", a), format!("{:?}", b))` in the
parser and reducer tests. -/
def debugEq (a b : Exec) : Prop := fmtDebug a = fmtDebug b

instance (a b : Exec) : Decidable (debugEq a b) := by
  unfold debugEq
  infer_instance

/-! ## The reduction engine, `crates/reducer/src/lib.rs` -/

/-- `get_children` from the reducer: matches every constructor, binds nothing,
and returns its argument unchanged. -/
def get_children (ast : Exec) : Exec :=
  ast

/-- `create_transition_tree_recursive` from the reducer: calls `get_children`
(the fold in the source is commented out) and returns unit. -/
def create_transition_tree_recursive (ast : Exec) : Unit :=
  let _children := get_children ast
  ()

/-- `can_reduce` from the reducer: the constant `false`. -/
def can_reduce (_tree : Unit) : Bool :=
  false

/-- `apply_transitions_recursive` from the reducer: returns unit. -/
def apply_transitions_recursive (_tree : Unit) : Unit :=
  ()

/-- `reduce_fully` from the reducer: builds the transition tree, and if
`can_reduce` holds, applies transitions and recurses on the same `ast`;
otherwise returns `ast`.  In the source the `true` branch calls
`reduce_fully(ast)` with the unchanged `ast` (a diverging self-call); the
branch is unreachable because `can_reduce` is the constant `false`, so it is
embedded as the impossible case. -/
def reduce_fully (ast : Exec) : Exec :=
  let transition_tree := create_transition_tree_recursive ast
  match h : can_reduce transition_tree with
  | true =>
    let _transition_tree := apply_transitions_recursive transition_tree
    Bool.noConfusion h
  | false => ast

theorem reduce_fully_id (ast : Exec) : reduce_fully ast = ast := by
  unfold reduce_fully
  rfl

/-! ## Structural congruence

Modelled from the spec: the structural-congruence procedure (spec sections 3,
4.3 and the glossary) is described but not present in the provided sources
(the matcher and congruence code of the reducer crate are stubs).  Congruence
is embedded as a canonicalization: `Parallel` children are flattened
(associativity), empty branches are pruned (identity), children are sorted by
their `Debug` string (commutativity), singleton `Parallel`/`Serial` collapse
to their element, a transparent `Group` is unwrapped, an empty `Serial` is the
empty composition, and `a[]` is identified with the bare name `a`. -/

/-- Byte-wise comparison of characters, used as a total order for sorting. -/
def charLtB (c d : Char) : Bool := c.val.toNat < d.val.toNat

def charListLeB : List Char → List Char → Bool
  | [], _ => true
  | _ :: _, [] => false
  | c :: cs, d :: ds =>
    if charLtB c d then true
    else if charLtB d c then false
    else charListLeB cs ds

def strLeB (a b : String) : Bool := charListLeB a.data b.data

/-- Insertion into a list sorted by `Debug` string. -/
def insertByKey (e : Exec) : List Exec → List Exec
  | [] => [e]
  | x :: xs =>
    if strLeB (fmtDebug e) (fmtDebug x) then e :: x :: xs
    else x :: insertByKey e xs

def sortByKey : List Exec → List Exec
  | [] => []
  | x :: xs => insertByKey x (sortByKey xs)

/-- Flatten already-canonical parallel branches: nested `Parallel` children are
spliced in (associativity) and empty ones vanish (identity). -/
def flattenPars : List Exec → List Exec
  | [] => []
  | .Parallel es :: rest => es ++ flattenPars rest
  | e :: rest => e :: flattenPars rest

/-- Drop empty compositions from a sequence (the identity may be elided when
rebuilding a parent); unlike `flattenPars` this keeps `Parallel` nesting,
since splicing into a `Serial` would change sequencing. -/
def dropEmptyPars : List Exec → List Exec
  | [] => []
  | .Parallel [] :: rest => dropEmptyPars rest
  | e :: rest => e :: dropEmptyPars rest

/-- Rebuild a parallel composition, collapsing a singleton to its element. -/
def mkPar : List Exec → Exec
  | [e] => e
  | es => .Parallel es

/-- Rebuild a sequence: an empty `Serial` is the empty composition and a
singleton collapses to its element. -/
def mkSer : List Exec → Exec
  | [] => .Parallel []
  | [e] => e
  | es => .Serial es

mutual

/-- Canonical form for structural congruence (see the section comment). -/
def canon : Exec → Exec
  | .Parallel es => mkPar (sortByKey (flattenPars (canonList es)))
  | .Serial es => mkSer (dropEmptyPars (canonList es))
  | .Noop n => .Noop n
  | .Ambient n e =>
    match canon e with
    | .Parallel [] => .Noop n
    | e' => .Ambient n e'
  | .Group e => canon e
  | .Open n => .Open n
  | .Open_ n => .Open_ n
  | .In n => .In n
  | .In_ n => .In_ n
  | .Out n => .Out n
  | .Out_ n => .Out_ n

def canonList : List Exec → List Exec
  | [] => []
  | e :: es => canon e :: canonList es

end

/-- Structural congruence as a decidable comparison: equality of canonical
forms. -/
def structCong (a b : Exec) : Bool := execEq (canon a) (canon b)

/-! ## The lexer, `crates/lexer/src/lib.rs` -/

/-- The `Grammar` token enum from the lexer, one variant per `#[token]` /
`#[regex]` declaration (plus `End` and `Error`). -/
inductive Grammar where
  | A_
  | _A
  | Arg
  | Call
  | Create
  | CoIn
  | CoOpen
  | CoOut
  | Deploy
  | Func
  | In
  | Open
  | Out
  | P_
  | _P
  | Parallel
  | Return
  | Str
  | Wait
  | Name
  | End
  | Error
deriving DecidableEq

/-- Token classification of a maximal identifier word (a `[a-zA-Z_-]+` run)
standing at end of input, translated from the lexer's token declarations.
Logos picks the longest match and prefers an exact `#[token]` over the
`#[regex]` on a tie, so a word equal to one of the declared token strings
lexes as that dedicated variant and every other word lexes as `Name`.  The
declared token `"in "` carries a trailing space and therefore cannot match a
word at end of input, so the word `in` falls through to `Name` here. -/
def lex_word (w : String) : Grammar :=
  if w = "arg" then .Arg
  else if w = "call" then .Call
  else if w = "create" then .Create
  else if w = "in_" then .CoIn
  else if w = "open_" then .CoOpen
  else if w = "out_" then .CoOut
  else if w = "deploy" then .Deploy
  else if w = "func" then .Func
  else if w = "open" then .Open
  else if w = "out" then .Out
  else if w = "return" then .Return
  else if w = "string" then .Str
  else .Name

/-- The words that the lexer declares as dedicated tokens and that are also
identifier-shaped (every `#[token]` string except the structural symbols and
the space-carrying `"in "`). -/
def lexerKeywords : List String :=
  ["arg", "call", "create", "in_", "open_", "out_", "deploy", "func",
   "open", "out", "return", "string"]

/-- A word in the lexical class of ambient-name identifiers, `[a-zA-Z_-]+`. -/
def isNameChar (c : Char) : Bool :=
  (('a' ≤ c && c ≤ 'z') || ('A' ≤ c && c ≤ 'Z') || c = '_' || c = '-')

def isIdentWord (w : String) : Bool :=
  !w.data.isEmpty && w.data.all isNameChar

/-! ## The parser

Modelled from the spec: the LALRPOP grammar file (`ambients.lalrpop`,
synthesized into the `ExecutionParser` used by `crates/parser/src/lib.rs` and
`crates/core/src/ambient.rs`) is not among the provided sources — only its
tests are.  The parser below follows the surface grammar of spec section 6

  program  := parallel
  parallel := serial ( "|" serial )*
  serial   := atom ( "." atom )*
  atom     := NAME "[" parallel "]" | NAME
            | "in" NAME | "out" NAME | "open" NAME
            | "in_" NAME? | "out_" NAME? | "open_" NAME?
            | "(" parallel ")"

with the collapse rules of section 4.2 (a singleton `Parallel`/`Serial`
collapses to its element, `a[]` parses to `Noop "a"`, a parenthesized
parallel becomes a `Group`), and errors are `ParseError{position, expected}`
per section 7.  Its output matches every expectation of the parser crate's
test suite. -/

/-- `ParseError{ position, expected }` from spec sections 4.2 and 7. -/
structure ParseError where
  position : Nat
  expected : List String
deriving DecidableEq

/-- Surface tokens for the parser model: identifier words and the structural
symbols. -/
inductive Tok where
  | word : String → Tok
  | lbrack
  | rbrack
  | lparen
  | rparen
  | pipe
  | dot
deriving DecidableEq

abbrev PosTok := Tok × Nat

/-- Single-pass tokenizer: accumulates identifier characters into words,
skips whitespace, emits structural symbols, and reports an unrecognized
character as a `ParseError` at its position. -/
def tokLoop : List Char → Nat → List Char → Nat → Except ParseError (List PosTok)
  | [], _pos, buf, start =>
    if buf.isEmpty then .ok []
    else .ok [(Tok.word (String.mk buf), start)]
  | c :: rest, pos, buf, start =>
    if isNameChar c then
      tokLoop rest (pos + 1) (buf ++ [c]) (if buf.isEmpty then pos else start)
    else
      let emit : List PosTok → List PosTok := fun ts =>
        if buf.isEmpty then ts else (Tok.word (String.mk buf), start) :: ts
      let sym : Tok → Except ParseError (List PosTok) := fun t =>
        (fun ts => emit ((t, pos) :: ts)) <$> tokLoop rest (pos + 1) [] 0
      if c = ' ' || c = '\n' || c = '\t' || c = '\r' then
        emit <$> tokLoop rest (pos + 1) [] 0
      else if c = '[' then sym Tok.lbrack
      else if c = ']' then sym Tok.rbrack
      else if c = '(' then sym Tok.lparen
      else if c = ')' then sym Tok.rparen
      else if c = '|' then sym Tok.pipe
      else if c = '.' then sym Tok.dot
      else .error ⟨pos, ["name", "[", "]", "(", ")", "|", "."]⟩

def tokenize (s : String) : Except ParseError (List PosTok) :=
  tokLoop s.data 0 [] 0

/-- Head-of-list test used to phrase the "no name follows" side conditions. -/
def headIsWord : List PosTok → Bool
  | (Tok.word _, _) :: _ => true
  | _ => false

def mkCap (w n : String) : Exec :=
  if w = "in" then .In n
  else if w = "out" then .Out n
  else .Open n

def mkCoCap (w n : String) : Exec :=
  if w = "in_" then .In_ n
  else if w = "out_" then .Out_ n
  else .Open_ n

/-- The grammar production being parsed (`parRest`/`serRest` carry the
elements accepted so far of a `|`- or `.`-separated list). -/
inductive PMode where
  | par
  | parRest : List Exec → PMode
  | ser
  | serRest : List Exec → PMode
  | atom

/-- Recursive-descent parser for the surface grammar, written as a single
function structurally recursive on fuel so that concrete parses reduce
definitionally. -/
def parseGo : Nat → Nat → PMode → List PosTok → Except ParseError (Exec × List PosTok)
  | 0, endPos, _, _ => .error ⟨endPos, ["fuel"]⟩
  | fuel + 1, endPos, mode, ts =>
    match mode with
    | .par => do
      let (first, ts') ← parseGo fuel endPos .ser ts
      parseGo fuel endPos (.parRest [first]) ts'
    | .parRest acc =>
      match ts with
      | (Tok.pipe, _) :: ts' => do
        let (nxt, ts'') ← parseGo fuel endPos .ser ts'
        parseGo fuel endPos (.parRest (acc ++ [nxt])) ts''
      | _ => .ok (mkPar acc, ts)
    | .ser => do
      let (first, ts') ← parseGo fuel endPos .atom ts
      parseGo fuel endPos (.serRest [first]) ts'
    | .serRest acc =>
      match ts with
      | (Tok.dot, _) :: ts' => do
        let (nxt, ts'') ← parseGo fuel endPos .atom ts'
        parseGo fuel endPos (.serRest (acc ++ [nxt])) ts''
      | _ => .ok (mkSer acc, ts)
    | .atom =>
      match ts with
      | (Tok.word w, _) :: ts' =>
        if w = "in" || w = "out" || w = "open" then
          match ts' with
          | (Tok.word n, _) :: ts'' => .ok (mkCap w n, ts'')
          | (_, q) :: _ => .error ⟨q, ["name"]⟩
          | [] => .error ⟨endPos, ["name"]⟩
        else if w = "in_" || w = "out_" || w = "open_" then
          match ts' with
          | (Tok.word n, _) :: ts'' => .ok (mkCoCap w n, ts'')
          | _ => .ok (mkCoCap w "*", ts')
        else
          match ts' with
          | (Tok.lbrack, _) :: (Tok.rbrack, _) :: ts'' => .ok (.Noop w, ts'')
          | (Tok.lbrack, _) :: ts'' => do
            let (body, tsr) ← parseGo fuel endPos .par ts''
            match tsr with
            | (Tok.rbrack, _) :: ts3 => .ok (.Ambient w body, ts3)
            | (_, q) :: _ => .error ⟨q, ["]"]⟩
            | [] => .error ⟨endPos, ["]"]⟩
          | _ => .ok (.Noop w, ts')
      | (Tok.lparen, _) :: ts' => do
        let (body, tsr) ← parseGo fuel endPos .par ts'
        match tsr with
        | (Tok.rparen, _) :: ts'' => .ok (.Group body, ts'')
        | (_, q) :: _ => .error ⟨q, [")"]⟩
        | [] => .error ⟨endPos, [")"]⟩
      | (_, q) :: _ => .error ⟨q, ["atom"]⟩
      | [] => .error ⟨endPos, ["atom"]⟩

/-- The `parallel` production (`|`-separated serials). -/
def parseParallel (fuel endPos : Nat) (ts : List PosTok) :
    Except ParseError (Exec × List PosTok) :=
  parseGo fuel endPos .par ts

/-- The `serial` production (`.`-separated atoms). -/
def parseSerial (fuel endPos : Nat) (ts : List PosTok) :
    Except ParseError (Exec × List PosTok) :=
  parseGo fuel endPos .ser ts

/-- The `atom` production. -/
def parseAtom (fuel endPos : Nat) (ts : List PosTok) :
    Except ParseError (Exec × List PosTok) :=
  parseGo fuel endPos .atom ts

/-- `parse(text) -> Result<Term, ParseError>` from spec section 6: tokenize,
parse a `parallel`, and require the input to be exhausted. -/
def parse (s : String) : Except ParseError Exec := do
  let ts ← tokenize s
  let (e, rest) ← parseParallel (4 * (ts.length + 1)) s.length ts
  match rest with
  | [] => .ok e
  | (_, q) :: _ => .error ⟨q, ["end of input"]⟩

def exceptIsOk {ε α : Type} : Except ε α → Bool
  | .ok _ => true
  | .error _ => false

/-! ## The redex matcher

Modelled from the spec: `find_redex` (spec section 4.4) has no implementation
in the provided sources (the reducer's matcher is a stub), so the three rule
topologies are embedded here as a decidable search, used to state which terms
are normal forms.  A pending head is the head of a `Serial` (a bare leaf is
its own head), collected across the branches of a composition; transparent
`Group`s are unwrapped and nested `Parallel`s flattened when listing the
siblings of a scope; an ambient element contributes no pending head to its
enclosing scope.  For dissolution the requester is taken to be the enclosing
ambient, so at top level only the wildcard authorizes; inside a `Serial` only
the head position is searched, since later elements are not yet eligible. -/

mutual

/-- The sibling elements of a scope: `Parallel` children flattened and
`Group`s unwrapped. -/
def branches : Exec → List Exec
  | .Parallel es => branchesList es
  | .Group e => branches e
  | e => [e]

def branchesList : List Exec → List Exec
  | [] => []
  | e :: es => branches e ++ branchesList es

end

mutual

/-- The pending head capability/co-capability leaves of a process. -/
def headCaps : Exec → List Exec
  | .Serial [] => []
  | .Serial (e :: _) => headCaps e
  | .Group e => headCaps e
  | .Parallel es => headCapsList es
  | .Ambient _ _ => []
  | .Noop _ => []
  | leaf => [leaf]

def headCapsList : List Exec → List Exec
  | [] => []
  | e :: es => headCaps e ++ headCapsList es

end

/-- Does the head set contain `In(target)`? -/
def hasInCap (target : String) : List Exec → Bool
  | [] => false
  | .In n :: rest => n == target || hasInCap target rest
  | _ :: rest => hasInCap target rest

/-- Does the head set contain `Out(target)`? -/
def hasOutCap (target : String) : List Exec → Bool
  | [] => false
  | .Out n :: rest => n == target || hasOutCap target rest
  | _ :: rest => hasOutCap target rest

/-- Does the head set contain `Open(target)`? -/
def hasOpenCap (target : String) : List Exec → Bool
  | [] => false
  | .Open n :: rest => n == target || hasOpenCap target rest
  | _ :: rest => hasOpenCap target rest

/-- Does the head set contain `In_(auth)` with `auth` the wildcard or the
requester's name? -/
def hasCoIn (requester : String) : List Exec → Bool
  | [] => false
  | .In_ a :: rest => a == "*" || a == requester || hasCoIn requester rest
  | _ :: rest => hasCoIn requester rest

/-- Does the head set contain `Out_(auth)` authorizing the requester? -/
def hasCoOut (requester : String) : List Exec → Bool
  | [] => false
  | .Out_ a :: rest => a == "*" || a == requester || hasCoOut requester rest
  | _ :: rest => hasCoOut requester rest

/-- Does the head set contain `Open_(auth)` authorizing the requester (the
requester is the enclosing ambient, if any)? -/
def hasCoOpen (encl : Option String) : List Exec → Bool
  | [] => false
  | .Open_ a :: rest =>
    a == "*" || (match encl with | some n => a == n | none => false) ||
      hasCoOpen encl rest
  | _ :: rest => hasCoOpen encl rest

/-- Entry topology between two distinct siblings: `A` with pending head
`In(B)` and an ambient named `B` with pending head `In_(auth)`,
`auth ∈ {*, A}`. -/
def isEntryPair : Exec → Exec → Bool
  | .Ambient aN aB, .Ambient bN bB =>
    hasInCap bN (headCaps aB) && hasCoIn aN (headCaps bB)
  | _, _ => false

/-- Dissolution topology between two distinct siblings: a pending head
`Open(B)` and an ambient named `B` with pending head `Open_(auth)`,
`auth ∈ {*, requester}`. -/
def isOpenPair (encl : Option String) : Exec → Exec → Bool
  | e, .Ambient bN bB =>
    hasOpenCap bN (headCaps e) && hasCoOpen encl (headCaps bB)
  | _, _ => false

/-- Any ordered pair of distinct elements satisfying `p`. -/
def anyDistinctPair (p : Exec → Exec → Bool) (es : List Exec) : Bool :=
  (es.enum).any fun ia =>
    (es.enum).any fun jb =>
      ia.1 != jb.1 && p ia.2 jb.2

/-- Exit topology at an ambient named `bN`: a direct child ambient `A` with
pending head `Out(bN)` while `bN`'s own pending head is `Out_(auth)`,
`auth ∈ {*, A}`. -/
def exitAt (bN : String) (body : Exec) : Bool :=
  (branches body).any fun child =>
    match child with
    | .Ambient aN aB => hasOutCap bN (headCaps aB) && hasCoOut aN (headCaps body)
    | _ => false

/-- The entry/dissolution check for one scope. -/
def scopePairs (encl : Option String) (es : List Exec) : Bool :=
  anyDistinctPair isEntryPair es || anyDistinctPair (isOpenPair encl) es

mutual

/-- Top-down redex search (spec section 4.4): every `Parallel` scope at every
depth is tested for the sibling topologies, every ambient for the exit
topology. -/
def hasRedexAux (encl : Option String) : Exec → Bool
  | .Parallel es => scopePairs encl (branchesList es) || hasRedexAuxList encl es
  | .Group e => hasRedexAux encl e
  | .Serial [] => false
  | .Serial (h :: _) => hasRedexAux encl h
  | .Ambient n b =>
    exitAt n b || scopePairs (some n) (branches b) || hasRedexAux (some n) b
  | _ => false

def hasRedexAuxList (encl : Option String) : List Exec → Bool
  | [] => false
  | e :: es => hasRedexAux encl e || hasRedexAuxList encl es

end

/-- `find_redex(term).is_some()`: the term contains a redex somewhere. -/
def hasRedex (t : Exec) : Bool := hasRedexAux none t

/-- A normal form is a term with no findable redex (spec sections 4.5, 8). -/
def isNormalForm (t : Exec) : Bool := !hasRedex t

/-! ## The `Ambient` wrapper of `crates/core/src/ambient.rs` -/

/-- The `Ambient` struct of the core crate: a parsed AST (the `cid` field is
commented out there). -/
structure AmbientCore where
  ast : Exec

/-- `std::fmt::Error`: a unit struct carrying no data — no position, no
expected-token list. -/
inductive FmtError where
  | mk
deriving DecidableEq

/-- `Ambient::from_str` from `crates/core/src/ambient.rs`: parse the program;
on success wrap the AST, on failure discard the parse error (`Err(_e)`) and
return `std::fmt::Error`. -/
def from_str (program : String) : Except FmtError AmbientCore :=
  match parse program with
  | .ok ast => .ok ⟨ast⟩
  | .error _ => .error FmtError.mk

/-- `impl Display for Ambient` (both `crates/core/src/ambient.rs` and
`src/ambient.rs`): writes the literal text `"ambient"` — quotes included,
via `r#""ambient""#` — regardless of the value. -/
def ambientDisplay (_a : AmbientCore) : String := "\"ambient\""

/-! ## `Ambient::new` and `hash` from `src/ambient.rs`

`any_as_u8_slice(p: &T)` reinterprets `size_of::<T>()` bytes at `p`.  `hash`
calls it on `&content`, so the hashed bytes are the in-memory bytes of the
reference `content` itself — a pointer-sized value — not the pointed-to data.
The embedding makes the machine state explicit: every `&T` value is an
address (a `Nat`), and `usizeBytes` is its little-endian 8-byte image, which
is what `any_as_u8_slice` yields for a pointer-sized `T`.  The SHA2-256 /
CID-encoding step is abstracted as an arbitrary `digest` function parameter,
since nothing below depends on its definition. -/

/-- The 8 little-endian bytes of a pointer-sized value. -/
def usizeBytes (addr : Nat) : List Nat :=
  [addr % 256, addr / 256 % 256, addr / 256 ^ 2 % 256, addr / 256 ^ 3 % 256,
   addr / 256 ^ 4 % 256, addr / 256 ^ 5 % 256, addr / 256 ^ 6 % 256,
   addr / 256 ^ 7 % 256]

/-- `any_as_u8_slice` specialised to a pointer-sized `T` (the only way `hash`
uses it): the raw bytes of the reference stored at `addr`'s slot — i.e. of
the address itself. -/
def any_as_u8_slice (addr : Nat) : List Nat := usizeBytes addr

/-- `hash(content)`: digest of `any_as_u8_slice(&content)`.  `content` is a
reference, so the digested bytes are those of the address held in the
argument slot. -/
def hashRef (digest : List Nat → List Nat) (addrHeldByContent : Nat) : List Nat :=
  digest (any_as_u8_slice addrHeldByContent)

/-- The `Manifest` built by `Ambient::new` (keys, creator and signature are
passed as `None`). -/
structure ManifestVal where
  program_cid : List Nat
  name : String

/-- The `Ambient` struct of `src/ambient.rs`. -/
structure AmbientSrc where
  cid : List Nat
  name : String
  program : String

/-- `Ambient::new(name, program)` from `src/ambient.rs`: `program_cid` is
`hash(&program)` — the digest of the address of the local `program` slot;
the manifest is built from it; the stored `cid` is `hash(&manifest)` — the
digest of the address of the local `manifest` slot.  The two stack-slot
addresses are explicit parameters of the embedding. -/
def ambientNew (digest : List Nat → List Nat) (name program : String)
    (programSlotAddr manifestSlotAddr : Nat) : AmbientSrc :=
  let program_cid := hashRef digest programSlotAddr
  let _manifest : ManifestVal := ⟨program_cid, name⟩
  let manifest_cid := hashRef digest manifestSlotAddr
  { cid := manifest_cid, name := name, program := program }

/-! ## Claim theorems -/

/-- The parse of `"a[in b] | b[in_ a]"` (pinned by the parser crate's
`ambient_capabilities` test). -/
def entryProgTerm : Exec :=
  .Parallel [.Ambient "a" (.In "b"), .Ambient "b" (.In_ "a")]

/-- The normal form the entry rule should produce, `b[a[]]`. -/
def entryProgExpected : Exec := .Ambient "b" (.Parallel [.Noop "a"])

/-- Claim C1: the claim says `parse("a[in b] | b[in_ a]")` reduces in one
entry step to a term congruent to `b[a[]]`; the code does no such rewrite.
Evaluating the code at the failing input: the program parses to the expected
term, that term contains an entry redex, yet `reduce_fully` returns it
unchanged, and it is not structurally congruent to `Ambient("b",
Parallel([Bare("a")]))`. -/
theorem c1_entry_rule_not_reduced :
    parse "a[in b] | b[in_ a]" = Except.ok entryProgTerm ∧
    reduce_fully entryProgTerm = entryProgTerm ∧
    hasRedex entryProgTerm = true ∧
    structCong entryProgTerm entryProgExpected = false :=
  ⟨rfl, rfl, rfl, rfl⟩

/-- Claim C2: `reduce_fully` is the identity on every term — `can_reduce` is
false on every input, `get_children` returns its argument, no transition is
applied — and hence `reduce_fully` is idempotent. -/
theorem c2_reduce_fully_identity (t : Exec) :
    reduce_fully t = t ∧
    get_children t = t ∧
    can_reduce (create_transition_tree_recursive t) = false ∧
    reduce_fully (reduce_fully t) = reduce_fully t := by
  refine ⟨reduce_fully_id t, rfl, rfl, ?_⟩
  rw [reduce_fully_id, reduce_fully_id]

/-- The parse of the four-ambient path program (pinned by the parser crate's
`ambient_paths` test). -/
def chainProgTerm : Exec :=
  .Parallel [.Ambient "a" (.In "c"), .Ambient "b" (.In "c"),
    .Ambient "c" (.Serial [.In_ "a", .In_ "b", .In "d"]),
    .Ambient "d" (.In_ "c")]

/-- The normal form the chain should reach, `d[c[a[] | b[]]]`. -/
def chainProgExpected : Exec :=
  .Ambient "d" (.Ambient "c" (.Parallel [.Noop "a", .Noop "b"]))

/-- Claim C3: the claim (and the reducer's own `it_works` test) says the
four-ambient path program reduces to `d[c[a[] | b[]]]`; the code never
rewrites.  Evaluating the code at the failing input: the program parses to
the expected term, that term contains a redex, yet `reduce_fully` returns it
unchanged and it is not congruent to the claimed normal form. -/
theorem c3_four_ambient_chain_not_reduced :
    parse "a[in c] | b[in c] | c[in_ a.in_ b.in d] | d[in_ c]" =
      Except.ok chainProgTerm ∧
    reduce_fully chainProgTerm = chainProgTerm ∧
    hasRedex chainProgTerm = true ∧
    structCong chainProgTerm chainProgExpected = false :=
  ⟨rfl, rfl, rfl, rfl⟩

/-- Claim C4: for every term already in normal form (no redex), a reduction
step signals that none is available (`can_reduce` is false) and
`reduce_fully` returns the term unchanged. -/
theorem c4_normal_form_stability (t : Exec) (_h : isNormalForm t = true) :
    can_reduce (create_transition_tree_recursive t) = false ∧
    reduce_fully t = t :=
  ⟨rfl, reduce_fully_id t⟩

theorem c4_normal_form_stability_witness :
    isNormalForm (Exec.Noop "a") = true ∧
    (can_reduce (create_transition_tree_recursive (Exec.Noop "a")) = false ∧
      reduce_fully (Exec.Noop "a") = Exec.Noop "a") :=
  ⟨rfl, c4_normal_form_stability (Exec.Noop "a") rfl⟩

/-- Claim C5: the claim says the display operation produces text in the
surface grammar and `parse(to_display(T))` is congruent to `T`; instead the
`Display` impl writes the fixed text `"ambient"` (quotes included) for every
value, and that text is rejected by the parser at position 0 (the quote
character is in no lexical class), so the round trip never yields a term at
all. -/
theorem c5_display_constant_not_grammar :
    (∀ a : AmbientCore, ambientDisplay a = "\"ambient\"") ∧
    parse (ambientDisplay ⟨Exec.Noop "a"⟩) =
      Except.error ⟨0, ["name", "[", "]", "(", ")", "|", "."]⟩ :=
  ⟨fun _ => rfl, rfl⟩

/-- Claim C6 counterexample: the claim says the error returned by
`Ambient::from_str` makes the position and expected-token information
available; but two malformed inputs whose parse errors differ (position 5
expecting `]` versus position 0 expecting an atom) are mapped by `from_str`
to the very same `std::fmt::Error` value, so neither position nor expected
tokens survive. -/
theorem c6_from_str_error_collapse_counterexample :
    from_str "a[b[]" = from_str "]" ∧
    parse "a[b[]" = Except.error ⟨5, ["]"]⟩ ∧
    parse "]" = Except.error ⟨0, ["atom"]⟩ ∧
    (⟨5, ["]"]⟩ : ParseError) ≠ (⟨0, ["atom"]⟩ : ParseError) :=
  ⟨rfl, rfl, rfl, by decide⟩

/-- Claim C6 as amended: malformed source text makes parsing fail with a
`ParseError` carrying position and expected tokens, and `Ambient::from_str`
surfaces the failure to the caller — it fails exactly when parsing fails,
never silently recovering — but the surfaced error is `std::fmt::Error`, a
unit value that no longer carries the position or expected-token
information. -/
theorem c6_from_str_surfaces_but_discards (s : String) :
    from_str s = Except.error FmtError.mk ↔ exceptIsOk (parse s) = false := by
  unfold from_str
  cases h : parse s <;> simp [exceptIsOk]

/-- Claim C7 counterexample: the claim says the lexer classifies `"func"`
exactly as an ordinary ambient-name identifier token; instead the lexer
declares a dedicated `Func` token for it, distinct from `Name`. -/
theorem c7_func_not_name_counterexample :
    lex_word "func" = Grammar.Func ∧ Grammar.Func ≠ Grammar.Name := by
  decide

/-- Claim C7 as amended: the words `func`, `call`, `arg` and `return` (like
`create`, `deploy` and `string`) are declared as dedicated keyword token
variants in the lexer, so they do have special lexical status; every other
word matching `[a-zA-Z_-]+` that is not one of the lexer's declared token
words is classified as the ordinary `Name` identifier token. -/
theorem c7_protocol_words_are_keyword_tokens :
    lex_word "func" = Grammar.Func ∧
    lex_word "call" = Grammar.Call ∧
    lex_word "arg" = Grammar.Arg ∧
    lex_word "return" = Grammar.Return ∧
    ∀ w : String, isIdentWord w = true → w ∉ lexerKeywords →
      lex_word w = Grammar.Name := by
  refine ⟨rfl, rfl, rfl, rfl, ?_⟩
  intro w _hw hk
  simp only [lexerKeywords, List.mem_cons, List.not_mem_nil, or_false,
    not_or] at hk
  obtain ⟨h1, h2, h3, h4, h5, h6, h7, h8, h9, h10, h11, h12⟩ := hk
  simp only [lex_word, if_neg h1, if_neg h2, if_neg h3, if_neg h4, if_neg h5,
    if_neg h6, if_neg h7, if_neg h8, if_neg h9, if_neg h10, if_neg h11,
    if_neg h12]

theorem c7_protocol_words_are_keyword_tokens_witness :
    isIdentWord "hello" = true ∧ "hello" ∉ lexerKeywords ∧
    lex_word "hello" = Grammar.Name :=
  ⟨by decide, by decide,
    c7_protocol_words_are_keyword_tokens.2.2.2.2 "hello" (by decide) (by decide)⟩

/-- Claim C8: a co-capability keyword with no name following it parses to a
leaf carrying the wildcard sentinel `*` — for any following context whose
next token is not a name — while `in`/`out`/`open` fail to parse without an
explicit target; concretely, `parse("open_")` yields `Open_("*")` and the
trailing `in_` of `a[in b.in_ |b[]]` yields `In_("*")` (as the parser
crate's `ambient_paths` test expects). -/
theorem c8_cocap_wildcard_default :
    (∀ fuel endPos p rest, headIsWord rest = false →
      (parseAtom (fuel + 1) endPos ((Tok.word "in_", p) :: rest) =
        Except.ok (Exec.In_ "*", rest) ∧
       parseAtom (fuel + 1) endPos ((Tok.word "out_", p) :: rest) =
        Except.ok (Exec.Out_ "*", rest) ∧
       parseAtom (fuel + 1) endPos ((Tok.word "open_", p) :: rest) =
        Except.ok (Exec.Open_ "*", rest) ∧
       exceptIsOk (parseAtom (fuel + 1) endPos ((Tok.word "in", p) :: rest)) = false ∧
       exceptIsOk (parseAtom (fuel + 1) endPos ((Tok.word "out", p) :: rest)) = false ∧
       exceptIsOk (parseAtom (fuel + 1) endPos ((Tok.word "open", p) :: rest)) = false)) ∧
    parse "open_" = Except.ok (Exec.Open_ "*") ∧
    parse "a[in b.in_ |b[]]" =
      Except.ok (.Ambient "a" (.Parallel [.Serial [.In "b", .In_ "*"], .Noop "b"])) := by
  refine ⟨?_, rfl, rfl⟩
  intro fuel endPos p rest h
  cases rest with
  | nil => refine ⟨rfl, rfl, rfl, rfl, rfl, rfl⟩
  | cons hd tl =>
    obtain ⟨t, q⟩ := hd
    cases t <;>
      simp_all [parseAtom, parseGo, headIsWord, exceptIsOk, mkCap, mkCoCap]

theorem c8_cocap_wildcard_default_witness :
    headIsWord ([] : List PosTok) = false ∧
    parseAtom 1 0 [(Tok.word "in_", 0)] = Except.ok (Exec.In_ "*", []) :=
  ⟨rfl, (c8_cocap_wildcard_default.1 0 0 0 [] rfl).1⟩

/-- Claim C9 counterexample: the claim says the term model provides a deep
equality that treats `Parallel` children as an unordered multiset and
unwraps `Group`s; the only comparison the repository performs on terms is
`Debug`-string equality, and it distinguishes both a reordered `Parallel`
and a `Group`-wrapped term from their structural-congruence equals. -/
theorem c9_debug_eq_not_congruence_counterexample :
    ¬ debugEq (.Parallel [.Noop "a", .Noop "b"]) (.Parallel [.Noop "b", .Noop "a"]) ∧
    structCong (.Parallel [.Noop "a", .Noop "b"]) (.Parallel [.Noop "b", .Noop "a"]) = true ∧
    ¬ debugEq (.Group (.Noop "a")) (.Noop "a") ∧
    structCong (.Group (.Noop "a")) (.Noop "a") = true := by
  refine ⟨by decide, rfl, by decide, rfl⟩

/-- Claim C9 as amended: the term model (`Exec`) derives only `Debug` and
`Clone` and provides no equality of its own; the comparison the repository
actually uses — `Debug`-format string equality, as in every test — is exact
structural equality: reflexive, but sensitive to the order of `Parallel`
children and to transparent `Group` wrappers, so structurally congruent
terms can compare unequal. -/
theorem c9_term_comparison_is_debug_string :
    (∀ t : Exec, debugEq t t) ∧
    ¬ debugEq (.Serial [.In "b", .In_ "*"]) (.Group (.Serial [.In "b", .In_ "*"])) ∧
    structCong (.Serial [.In "b", .In_ "*"]) (.Group (.Serial [.In "b", .In_ "*"])) = true ∧
    ¬ debugEq (.Parallel [.Open_ "*", .Noop "c"]) (.Parallel [.Noop "c", .Open_ "*"]) ∧
    structCong (.Parallel [.Open_ "*", .Noop "c"]) (.Parallel [.Noop "c", .Open_ "*"]) = true :=
  ⟨fun _ => rfl, by decide, rfl, by decide, rfl⟩

/-- Claim C10: `Ambient::new` derives the stored `cid` by digesting the raw
bytes of a pointer-sized reference (via `any_as_u8_slice`), never the bytes
of the program text: with the stack-slot addresses made explicit, the `cid`
is the same for any two names and program texts whatever digest is used
(concretely, `hello-world`'s two different programs collide), while the same
name and program at different addresses can yield different `cid`s — so
equality across runs is not guaranteed. -/
theorem c10_cid_from_reference_bytes :
    (∀ (digest : List Nat → List Nat) n₁ p₁ n₂ p₂ aP₁ aP₂ aM,
      (ambientNew digest n₁ p₁ aP₁ aM).cid = (ambientNew digest n₂ p₂ aP₂ aM).cid) ∧
    (ambientNew id "hello-world" "string[hello[]]" 0 8).cid =
      (ambientNew id "hello-world" "beep[boop[]]" 16 8).cid ∧
    (∃ (digest : List Nat → List Nat), ∃ n p aP aM₁ aM₂,
      (ambientNew digest n p aP aM₁).cid ≠ (ambientNew digest n p aP aM₂).cid) :=
  ⟨fun _ _ _ _ _ _ _ _ => rfl, rfl,
    ⟨id, "hello-world", "string[hello[]]", 0, 0, 1, by decide⟩⟩

end Ambients
